import Mathlib

/-!
Verification of the rbackup-cli upload pipeline.

The Rust sources are shallowly embedded: pure fragments become Lean
functions over `Nat`-encoded bytes and `String` paths; the filesystem,
the HTTP transport and the async runtime are modelled at their interface
boundary, as the spec treats them (external collaborators).  Machine
integers are `Nat` with explicit reduction modulo 2^32 where the source
(or the sha2 crate it calls) wraps.
-/

set_option maxRecDepth 8192
set_option linter.unusedVariables false

namespace RBackup

/-! ## SHA-256 (model of the sha2 crate used by `connector/upload.rs`)

Bytes are `Nat` values below 256, 32-bit words are `Nat` values reduced
modulo 2^32 by `w32`. -/

/-- Truncation to a 32-bit word. -/
def w32 (x : Nat) : Nat := x % 4294967296

/-- Right rotation of a 32-bit word by `n` bits. -/
def rotr (n x : Nat) : Nat := w32 ((x >>> n) ||| (x <<< (32 - n)))

/-- The big sigma-0 word mix of FIPS 180-4. -/
def mixA (x : Nat) : Nat := (rotr 2 x) ^^^ (rotr 13 x) ^^^ (rotr 22 x)

/-- The big sigma-1 word mix of FIPS 180-4. -/
def mixE (x : Nat) : Nat := (rotr 6 x) ^^^ (rotr 11 x) ^^^ (rotr 25 x)

/-- The small sigma-0 schedule mix of FIPS 180-4. -/
def mixS0 (x : Nat) : Nat := (rotr 7 x) ^^^ (rotr 18 x) ^^^ (x >>> 3)

/-- The small sigma-1 schedule mix of FIPS 180-4. -/
def mixS1 (x : Nat) : Nat := (rotr 17 x) ^^^ (rotr 19 x) ^^^ (x >>> 10)

/-- The 64 SHA-256 round constants, as decimal 32-bit values. -/
def shaK : List Nat :=
  [1116352408, 1899447441, 3049323471, 3921009573, 961987163, 1508970993,
   2453635748, 2870763221, 3624381080, 310598401, 607225278, 1426881987,
   1925078388, 2162078206, 2614888103, 3248222580, 3835390401, 4022224774,
   264347078, 604807628, 770255983, 1249150122, 1555081692, 1996064986,
   2554220882, 2821834349, 2952996808, 3210313671, 3336571891, 3584528711,
   113926993, 338241895, 666307205, 773529912, 1294757372, 1396182291,
   1695183700, 1986661051, 2177026350, 2456956037, 2730485921, 2820302411,
   3259730800, 3345764771, 3516065817, 3600352804, 4094571909, 275423344,
   430227734, 506948616, 659060556, 883997877, 958139571, 1322822218,
   1537002063, 1747873779, 1955562222, 2024104815, 2227730452, 2361852424,
   2428436474, 2756734187, 3204031479, 3329325298]

/-- The SHA-256 initial hash value, as decimal 32-bit values. -/
def shaH0 : List Nat :=
  [1779033703, 3144134277, 1013904242, 2773480762,
   1359893119, 2600822924, 528734635, 1541459225]

/-- Big-endian byte serialization of `x` into `n` bytes. -/
def toBytesBE (n : Nat) (x : Nat) : List Nat :=
  (List.range n).map fun i => (x >>> (8 * (n - 1 - i))) % 256

/-- Group a byte list into big-endian 32-bit words. -/
def bytesToWords : List Nat → List Nat
  | a :: b :: c :: d :: rest => (((a * 256 + b) * 256 + c) * 256 + d) :: bytesToWords rest
  | _ => []

/-- SHA-256 padding: append 0x80, zero bytes to 56 mod 64, then the
bit length as 8 big-endian bytes. -/
def padMessage (ms : List Nat) : List Nat :=
  let L := ms.length
  let zeros := (119 - L % 64) % 64
  ms ++ [128] ++ List.replicate zeros 0 ++ toBytesBE 8 (8 * L)

/-- Next word of the message schedule, from the words produced so far. -/
def scheduleStep (w : List Nat) : Nat :=
  let n := w.length
  w32 (mixS1 (w.getD (n - 2) 0) + w.getD (n - 7) 0 + mixS0 (w.getD (n - 15) 0) + w.getD (n - 16) 0)

/-- Extend a message-schedule prefix by `k` further words. -/
def extendTo (w : List Nat) : Nat → List Nat
  | 0 => w
  | k + 1 => extendTo (w ++ [scheduleStep w]) k

/-- The full 64-word message schedule of one 16-word block. -/
def messageSchedule (block16 : List Nat) : List Nat := extendTo block16 48

/-- One SHA-256 round on the 8-word working state; `kw` is the round
constant paired with the schedule word. -/
def compressRound (st : List Nat) (kw : Nat × Nat) : List Nat :=
  match st with
  | [a, b, c, d, e, f, g, h] =>
    let ch := (e &&& f) ^^^ ((e ^^^ 4294967295) &&& g)
    let maj := (a &&& b) ^^^ (a &&& c) ^^^ (b &&& c)
    let t1 := w32 (h + mixE e + ch + kw.1 + kw.2)
    let t2 := w32 (mixA a + maj)
    [w32 (t1 + t2), a, b, c, w32 (d + t1), e, f, g]
  | other => other

/-- Compress one 16-word block into the running hash value. -/
def compressBlock (h : List Nat) (block16 : List Nat) : List Nat :=
  let st := ((shaK.zip (messageSchedule block16))).foldl compressRound h
  (h.zip st).map fun p => w32 (p.1 + p.2)

/-- Split a byte list into 64-byte chunks; the fuel argument bounds the
number of chunks and is only exhausted once the list is empty when it is
at least the list length. -/
def chunksAux : Nat → List Nat → List (List Nat)
  | 0, _ => []
  | fuel + 1, bs => if bs = [] then [] else bs.take 64 :: chunksAux fuel (bs.drop 64)

/-- Split a byte list into 64-byte chunks. -/
def chunks64 (bs : List Nat) : List (List Nat) := chunksAux bs.length bs

/-- SHA-256 digest of a byte sequence, as 32 bytes. -/
def sha256 (ms : List Nat) : List Nat :=
  let final := (chunks64 (padMessage ms)).foldl (fun h b => compressBlock h (bytesToWords b)) shaH0
  (final.map (toBytesBE 4)).flatten

/-- Lowercase hexadecimal digit. -/
def hexDigit (n : Nat) : Char :=
  if n < 10 then Char.ofNat (48 + n) else Char.ofNat (87 + n)

/-- Model of `hex::encode`: lowercase hex string of a byte list. -/
def hexEncode (bs : List Nat) : String :=
  String.mk ((bs.map fun b => [hexDigit (b / 16), hexDigit (b % 16)]).flatten)

/-- Sanity anchor: the SHA-256 of the empty byte sequence matches the
well-known constant (also quoted in the spec, end-to-end scenario A). -/
theorem sha256_empty_hex :
    hexEncode (sha256 []) =
      "e3b0c44298fc1c149afbf4c8996fb92427ae41e4649b934ca495991b7852b855" := by
  decide

/-! ## Streaming upload body (`src/connector/upload.rs`)

The sha2 crate's incremental interface is modelled by its absorbed byte
sequence: `sha2::digest::Input::input` appends bytes, `result()` is
`sha256` of everything absorbed. -/

/-- Model of `Vec::with_capacity(cap)`: it reserves `cap` bytes of
capacity but the vector LENGTH is 0 — the vector holds no elements. -/
def vecWithCapacity (cap : Nat) : List Nat := []

/-- Model of `tokio::io::AsyncReadExt::read(&mut buff)` on a file whose
cursor is at `pos`: the slice passed to `read` is the vector's element
range, so at most `buff.length` bytes are copied into the front of the
buffer; the read count (here exactly `min buff.length remaining`, and
necessarily 0 whenever the buffer is empty) is returned with the buffer
contents after the copy. -/
def readInto (file : List Nat) (pos : Nat) (buff : List Nat) : Nat × List Nat :=
  let n := min buff.length (file.length - pos)
  (n, (file.drop pos).take n ++ buff.drop n)

/-- One step of the `futures::stream::unfold` loop in
`UploadedFile::get_body`: allocate `Vec::with_capacity(4096)`, read into
it, and if more than zero bytes were read yield the buffer (which is
also fed to the hasher) with the advanced position, else end the
stream. -/
def bodyStep (file : List Nat) (pos : Nat) : Option (List Nat × Nat) :=
  let buff := vecWithCapacity 4096
  let r := readInto file pos buff
  if r.1 > 0 then some (r.2, pos + r.1) else none

/-- Chunks yielded by the `get_body` stream from position `pos`.  The
fuel bounds the iteration count; `file.length + 1` always suffices since
every yielded chunk advances the position by at least one byte. -/
def bodyChunksAux (file : List Nat) : Nat → Nat → List (List Nat)
  | 0, _ => []
  | fuel + 1, pos =>
    match bodyStep file pos with
    | none => []
    | some (buff, pos2) => buff :: bodyChunksAux file fuel pos2

/-- All chunks yielded by the `get_body` stream of a file. -/
def get_body_chunks (file : List Nat) : List (List Nat) :=
  bodyChunksAux file (file.length + 1) 0

/-- The bytes `get_body` hands to the HTTP body part, in order. -/
def get_body_bytes (file : List Nat) : List Nat := (get_body_chunks file).flatten

/-- The bytes fed into the SHA-256 digest by `get_body`: each yielded
chunk is also passed to `sha2::digest::Input::input`, so the absorbed
sequence is the concatenation of the yielded chunks. -/
def bodyAbsorbed (file : List Nat) : List Nat := (get_body_chunks file).flatten

/-- Model of the `Arc<Mutex<Sha256>>` handle held by the hash part:
`unique` records whether this is the only remaining reference — which
holds exactly when the file part's stream, which owns the other clone,
has been fully drained and dropped — and `absorbed` the byte sequence
fed into the digest so far. -/
structure ArcSha256 where
  unique : Bool
  absorbed : List Nat

/-- The `HashingPartState` enum of `src/connector/upload.rs`. -/
inductive HashingPartState where
  | Init (arc : ArcSha256)
  | Hashing (hasher : List Nat)
  | Closed

/-- Model of `UploadedFile::unwrap_hasher`: `Arc::try_unwrap` then
`Mutex::into_inner`, succeeding exactly when the reference is unique. -/
def unwrap_hasher (arc : ArcSha256) : Except String (List Nat) :=
  if arc.unique then .ok arc.absorbed else .error "Could not unwrap Arc!"

/-- One step of the `futures::stream::unfold` loop in
`UploadedFile::get_hash_part`: `Init` yields an empty string and moves
to `Hashing` when the hasher can be unwrapped, or yields an error and
moves to `Closed` when it cannot; `Hashing` yields the finalized
lowercase-hex digest and moves to `Closed`; `Closed` ends the stream. -/
def hashPartStep (st : HashingPartState) :
    Option (Except String String × HashingPartState) :=
  match st with
  | .Init arc =>
    match unwrap_hasher arc with
    | .ok hasher => some (.ok "", .Hashing hasher)
    | .error e => some (.error e, .Closed)
  | .Hashing hasher => some (.ok (hexEncode (sha256 hasher)), .Closed)
  | .Closed => none

/-- Items yielded by the hash-part stream from a state; fuel 3 covers
every trajectory of the three-state machine. -/
def hashItemsAux : Nat → HashingPartState → List (Except String String)
  | 0, _ => []
  | fuel + 1, st =>
    match hashPartStep st with
    | none => []
    | some (x, st2) => x :: hashItemsAux fuel st2

/-- All items the hash part yields for a given hasher handle. -/
def get_hash_part_items (arc : ArcSha256) : List (Except String String) :=
  hashItemsAux 3 (.Init arc)

/-- States visited by the hash-part stream, in order, ending at the
state in which the stream reports exhaustion. -/
def hashStatesAux : Nat → HashingPartState → List HashingPartState
  | 0, st => [st]
  | fuel + 1, st =>
    match hashPartStep st with
    | none => [st]
    | some (_, st2) => st :: hashStatesAux fuel st2

/-- The state trajectory of one hash part. -/
def hashStateTrace (arc : ArcSha256) : List HashingPartState :=
  hashStatesAux 3 (.Init arc)

/-- Constructor labels of `HashingPartState`, for stating lifecycle
properties. -/
inductive HashStateLabel where
  | init
  | hashing
  | closed
deriving DecidableEq

/-- The label of a state. -/
def stateLabel : HashingPartState → HashStateLabel
  | .Init _ => .init
  | .Hashing _ => .hashing
  | .Closed => .closed

/-- The label trajectory of one hash part. -/
def hashLabelTrace (arc : ArcSha256) : List HashStateLabel :=
  (hashStateTrace arc).map stateLabel

/-! ### Digest length facts (the finalized hex digest is never the empty
string the `Init` step emits) -/

theorem toBytesBE_length (n x : Nat) : (toBytesBE n x).length = n := by
  simp [toBytesBE]

theorem compressRound_length (st : List Nat) (kw : Nat × Nat) :
    (compressRound st kw).length = st.length := by
  unfold compressRound
  split <;> simp

theorem foldl_compressRound_length (l : List (Nat × Nat)) (st : List Nat) :
    (l.foldl compressRound st).length = st.length := by
  induction l generalizing st with
  | nil => rfl
  | cons kw t ih => rw [List.foldl_cons, ih, compressRound_length]

theorem compressBlock_length (h b : List Nat) (hh : h.length = 8) :
    (compressBlock h b).length = 8 := by
  simp [compressBlock, foldl_compressRound_length, hh]

theorem foldl_compressBlock_length (l : List (List Nat)) (h : List Nat) (hh : h.length = 8) :
    (l.foldl (fun h b => compressBlock h (bytesToWords b)) h).length = 8 := by
  induction l generalizing h with
  | nil => exact hh
  | cons b t ih => exact ih _ (compressBlock_length _ _ hh)

theorem flatten_map_toBytesBE_length (l : List Nat) :
    ((l.map (toBytesBE 4)).flatten).length = 4 * l.length := by
  induction l with
  | nil => rfl
  | cons a t ih =>
    simp only [List.map_cons, List.flatten_cons, List.length_append, ih,
      toBytesBE_length, List.length_cons]
    ring

theorem sha256_length (ms : List Nat) : (sha256 ms).length = 32 := by
  unfold sha256
  rw [flatten_map_toBytesBE_length, foldl_compressBlock_length]
  rfl

theorem hexEncode_length (bs : List Nat) : (hexEncode bs).length = 2 * bs.length := by
  unfold hexEncode
  rw [String.length_mk]
  induction bs with
  | nil => rfl
  | cons a t ih =>
    simp only [List.map_cons, List.flatten_cons, List.length_append, ih, List.length_cons,
      List.length_nil]
    omega

theorem sha256_hex_ne_empty (bs : List Nat) : hexEncode (sha256 bs) ≠ "" := by
  intro h
  have := hexEncode_length (sha256 bs)
  rw [h, sha256_length] at this
  simp [String.length] at this

/-! ## Retry with backoff (`src/commands.rs`)

`retried` wraps an operation in `futures_retry::FutureRetry` with
`RetryHandler`.  An operation is modelled as the map from the (1-based)
attempt number to that attempt's outcome. -/

/-- `MAX_ATTEMPTS` from `src/commands.rs`. -/
def MAX_ATTEMPTS : Nat := 3

/-- The `futures_retry::RetryPolicy` answer of an error handler; the
wait duration is in seconds. -/
inductive RetryPolicy (E : Type) where
  | waitRetry (secs : Nat)
  | forwardError (e : E)

/-- `RetryHandler::handle`: while the just-failed attempt number is
below `MAX_ATTEMPTS`, wait `2 ^ attempt` seconds and retry; otherwise
forward the error unchanged. -/
def retryHandlerHandle {E : Type} (attempt : Nat) (e : E) : RetryPolicy E :=
  if attempt < MAX_ATTEMPTS then .waitRetry (2 ^ attempt) else .forwardError e

/-- One run of `futures_retry::FutureRetry` with `RetryHandler`,
starting at attempt number `attempt`: calls `op` once per attempt and
consults the handler on each failure.  Returns the final result, the
backoff delays requested in seconds (in order), and the number of
attempts made. -/
def futureRetryFrom {E R : Type} (op : Nat → Except E R) (attempt : Nat) :
    Except E R × List Nat × Nat :=
  match op attempt with
  | .ok v => (.ok v, [], 1)
  | .error e =>
    match h : retryHandlerHandle attempt e with
    | .forwardError e2 => (.error e2, [], 1)
    | .waitRetry d =>
      let rest := futureRetryFrom op (attempt + 1)
      (rest.1, d :: rest.2.1, rest.2.2 + 1)
termination_by MAX_ATTEMPTS + 1 - attempt
decreasing_by
  unfold retryHandlerHandle at h
  split at h
  · omega
  · simp at h

/-- `commands::retried`: a `FutureRetry` run from attempt 1 (the
`map_err` in the source only drops `futures_retry`'s attempt counter
from the error, which this model does not carry). -/
def retried {E R : Type} (op : Nat → Except E R) : Except E R × List Nat × Nat :=
  futureRetryFrom op 1

/-! ## Upload outcome aggregation (`src/commands.rs`, `src/utils.rs`) -/

/-- The server-assigned file record (`UploadedFile` in
`src/connector/structs.rs`); timestamps are modelled as milliseconds. -/
structure UploadedFileRecord where
  id : Nat
  device_id : String
  original_name : String
  versions : List (Nat × Nat × String)
deriving DecidableEq

/-- `UploadFileResponse` from `src/connector/structs.rs`. -/
inductive UploadFileResponse where
  | Success (r : UploadedFileRecord)
  | HashMismatch (msg : String)
  | BadRequest (msg : String)
deriving DecidableEq

/-- The fold step of `IterUtils::collect_errors` (`src/utils.rs`): an
error is pushed onto the accumulated error list (or starts one); a
success leaves the accumulator unchanged. -/
def collectStep {S E : Type} (acc : Except (List E) Unit) (a : Except E S) :
    Except (List E) Unit :=
  match acc, a with
  | .error acc, .error e => .error (acc ++ [e])
  | .ok _, .error e => .error [e]
  | .error acc, .ok _ => .error acc
  | .ok _, .ok _ => .ok ()

/-- `IterUtils::collect_errors` from `src/utils.rs`: fold the results,
collecting every error in encounter order; `Ok` iff no error occurred. -/
def collect_errors {S E : Type} (l : List (Except E S)) : Except (List E) Unit :=
  l.foldl collectStep (.ok ())

/-- `commands::upload_file`, applied to the per-file result of
`retried(connector::upload_file)` (an `Except.error` input also covers
a failed `canonicalize`): every `Ok` response — `Success`,
`HashMismatch` and `BadRequest` alike — is only logged and mapped to
`Ok(())`; errors pass through. -/
def upload_file_outcome {E : Type} (r : Except E UploadFileResponse) : Except E Unit :=
  r.map fun _ => ()

/-- `commands::upload_files`, folded over the per-file results that
`buffer_unordered(parallelism).collect()` gathered (every task runs to
completion; the collection never aborts early): the run succeeds iff
`collect_errors` found no error. -/
def upload_files_result {E : Type} (results : List (Except E UploadFileResponse)) :
    Except String Unit :=
  match collect_errors (results.map upload_file_outcome) with
  | .ok _ => .ok ()
  | .error _ => .error "Could not upload all files"

/-- The errors of a result list, in order (specification helper for
`collect_errors`). -/
def errorsOf {S E : Type} (l : List (Except E S)) : List E :=
  l.filterMap fun r =>
    match r with
    | .error e => some e
    | .ok _ => none

/-! ## Path expansion (`src/commands.rs`)

The filesystem is an external collaborator; it is modelled by the two
predicates the source consults (`Path::is_dir`, `Path::is_file`, both of
which follow symlinks — a symlink to a regular file classifies as
`regular`, a dangling one as `danglingSymlink`) and by the entry list
the `walkdir` iterator (configured `follow_links(false)`,
`same_file_system(true)`) produces for a root. -/

/-- What a path resolves to on the modelled filesystem. -/
inductive FileKind where
  | regular
  | directory
  | danglingSymlink
deriving DecidableEq

/-- A filesystem snapshot: `kind` answers `is_dir`/`is_file` queries
(`none` means the path does not exist), `walk` lists the `walkdir`
results under a root (`Ok` entries carry the entry path, `Err` entries
are unreadable ones, which the source logs and skips). -/
structure Fs where
  kind : String → Option FileKind
  walk : String → List (Except String String)

/-- `std::path::Path::is_dir` on the modelled filesystem. -/
def Fs.is_dir (fs : Fs) (p : String) : Bool := fs.kind p == some .directory

/-- `std::path::Path::is_file` on the modelled filesystem. -/
def Fs.is_file (fs : Fs) (p : String) : Bool := fs.kind p == some .regular

/-- `commands::unfold_dirs`: directories are walked (unreadable entries
skipped, entries filtered by `is_file`); any non-directory input is
included verbatim. -/
def unfold_dirs (fs : Fs) (filenames : List String) : List String :=
  (filenames.map fun path =>
    if fs.is_dir path then
      ((fs.walk path).filterMap fun e =>
        match e with
        | .ok p => some p
        | .error _ => none).filter fun p => fs.is_file p
    else [path]).flatten

/-! ## Upload response interpretation (`src/connector/mod.rs`) -/

/-- The error taxonomy reaching `connector::upload_file`'s callers:
`HttpError::InvalidStatus` from `src/errors.rs`, a JSON decoding
failure of the 200 body, or any transport-level failure. -/
inductive AnyError where
  | invalidStatus (expected found : Nat)
  | jsonError (msg : String)
  | transportError (msg : String)
deriving DecidableEq

/-- The status dispatch of `connector::upload_file`: 200 parses the body
as the server record (a decoding failure is an error), 412 is
`HashMismatch` with the body text, 400 is `BadRequest` with the body
text, anything else is `InvalidStatus` with expected 200. -/
def interpret_upload_response (status : Nat)
    (json : Except String UploadedFileRecord) (text : String) :
    Except AnyError UploadFileResponse :=
  if status = 200 then
    match json with
    | .ok r => .ok (.Success r)
    | .error e => .error (.jsonError e)
  else if status = 412 then .ok (.HashMismatch text)
  else if status = 400 then .ok (.BadRequest text)
  else .error (.invalidStatus 200 status)

/-! ## The `Upload` arm of `main` (`src/main.rs`) -/

/-- The stages the `Upload` arm reaches after its argument validation:
`loadSession` reads the on-disk session file, `runUploads` is the call
into `commands::upload_files` (which performs all filesystem
enumeration and network traffic). -/
inductive UploadEffect where
  | loadSession
  | runUploads
deriving DecidableEq

/-- The `Upload` arm of `main`: reject an empty filename list, then
reject the first input that is a directory while the recursion flag is
unset, and only otherwise proceed to load the session and run the
uploads.  The returned list records the stages reached, in order. -/
def upload_command (fs : Fs) (recursive : Bool) (filenames : List String) :
    List UploadEffect × Except String Unit :=
  if filenames.isEmpty then
    ([], .error "You must provide at least one filename!")
  else
    match filenames.find? (fun path => fs.is_dir path && !recursive) with
    | some p => ([], .error (p ++ " is a dir but you did not enable dirs recursion!"))
    | none => ([.loadSession, .runUploads], .ok ())

/-! ## Bounded-concurrency scheduling (`src/commands.rs`)

`upload_files` drives the per-file futures through
`futures::stream::StreamExt::buffer_unordered(parallelism)`.  That
combinator is an external library; it is modelled at its documented
interface: it keeps a pool of at most `parallelism` started futures,
starts queued futures whenever the pool has a free slot, and polls the
started ones.  A task is modelled by the number of polls it needs; a
scheduler instant is one round of starting and polling. -/

/-- Scheduler state: queued task durations, remaining durations of
in-flight tasks, and counts of launched and completed tasks. -/
structure SchedState where
  pending : List Nat
  inflight : List Nat
  launched : Nat
  completed : Nat
deriving DecidableEq

/-- Move queued tasks into the pool until it holds `P` tasks or the
queue is empty. -/
def schedFill (P : Nat) (s : SchedState) : SchedState :=
  ⟨s.pending.drop (P - s.inflight.length),
   s.inflight ++ s.pending.take (P - s.inflight.length),
   s.launched + (s.pending.take (P - s.inflight.length)).length,
   s.completed⟩

/-- Poll every in-flight task once; tasks that reach zero remaining
polls complete and leave the pool. -/
def schedPoll (s : SchedState) : SchedState :=
  ⟨s.pending,
   (s.inflight.map fun n => n - 1).filter fun n => n != 0,
   s.launched,
   s.completed + ((s.inflight.map fun n => n - 1).filter fun n => n == 0).length⟩

/-- One scheduler instant. -/
def schedStep (P : Nat) (s : SchedState) : SchedState := schedPoll (schedFill P s)

/-- `k` scheduler instants. -/
def schedRun (P : Nat) : Nat → SchedState → SchedState
  | 0, s => s
  | k + 1, s => schedRun P k (schedStep P s)

/-- The scheduler state before the first instant: all tasks queued. -/
def initState (tasks : List Nat) : SchedState := ⟨tasks, [], 0, 0⟩

/-! ## Theorems -/

/-- The `get_body` read loop terminates immediately for every file: the
freshly allocated `Vec::with_capacity(4096)` has length 0, so `read`
can copy no bytes and the first step of the unfold already ends the
stream. -/
theorem get_body_chunks_nil (file : List Nat) : get_body_chunks file = [] := by
  simp [get_body_chunks, bodyChunksAux, bodyStep, readInto, vecWithCapacity]

/-- C1: the claim states that the `get_body` stream yields exactly the
file's bytes and that the finalized digest is the SHA-256 of the full
contents — but the stream reads into a zero-length buffer, so it yields
no bytes at all and the digest absorbed nothing: for the one-byte file
`[97]` the streamed bytes are `[]`, the digest is the empty-input
SHA-256 constant, and the SHA-256 of the actual contents differs. -/
theorem get_body_zero_read_bug :
    (∀ file : List Nat, get_body_bytes file = [] ∧ bodyAbsorbed file = []) ∧
    get_body_bytes [97] ≠ [97] ∧
    hexEncode (sha256 (bodyAbsorbed [97])) =
      "e3b0c44298fc1c149afbf4c8996fb92427ae41e4649b934ca495991b7852b855" ∧
    hexEncode (sha256 [97]) =
      "ca978112ca1bbdcafac231b39a23dc4da786eff8147c4e72b9807785afee48bb" := by
  refine ⟨fun file => ?_, ?_, ?_, ?_⟩
  · simp [get_body_bytes, bodyAbsorbed, get_body_chunks_nil]
  · decide
  · decide
  · decide

/-- C2: polled while the file part still holds its clone of the hasher
handle (`unique = false`), the hash part yields a single error and
never the digest; once the file part has been fully drained and dropped
(`unique = true`), it yields an empty string and then the finalized hex
digest exactly once as its terminal item — the digest is never the
empty string, and the `Closed` state yields nothing. -/
theorem hash_part_digest_ordering (bs : List Nat) :
    get_hash_part_items ⟨false, bs⟩ = [.error "Could not unwrap Arc!"] ∧
    get_hash_part_items ⟨true, bs⟩ = [.ok "", .ok (hexEncode (sha256 bs))] ∧
    hexEncode (sha256 bs) ≠ "" ∧
    hashPartStep .Closed = none := by
  refine ⟨?_, ?_, sha256_hex_ne_empty bs, rfl⟩
  · simp [get_hash_part_items, hashItemsAux, hashPartStep, unwrap_hasher]
  · simp [get_hash_part_items, hashItemsAux, hashPartStep, unwrap_hasher]

/-- C7 counterexample: when the hasher handle is still shared, the hash
part's trajectory is `Init → Closed` — the `Hashing` state is skipped,
so the lifecycle is not exactly `Init → Hashing → Closed` as claimed. -/
theorem hash_state_skips_hashing :
    hashLabelTrace ⟨false, []⟩ = [.init, .closed] ∧
    [HashStateLabel.init, .closed] ≠ [.init, .hashing, .closed] := by
  constructor
  · rfl
  · decide

/-- C7 (amended): the trajectory is `Init → Hashing → Closed` when the
hasher handle is unique, and `Init → Closed` (skipping `Hashing`) when
it is still shared; in either case no state is re-entered, the
finalizing `Hashing` state occurs at most once, and `Closed` is
terminal. -/
theorem hash_state_lifecycle (arc : ArcSha256) :
    hashLabelTrace arc =
      (if arc.unique then [.init, .hashing, .closed] else [.init, .closed]) ∧
    (hashLabelTrace arc).Nodup ∧
    (hashLabelTrace arc).count .hashing ≤ 1 ∧
    hashPartStep .Closed = none := by
  obtain ⟨u, bs⟩ := arc
  cases u <;>
    refine ⟨?_, ?_, ?_, rfl⟩ <;>
      simp [hashLabelTrace, hashStateTrace, hashStatesAux, hashPartStep,
        unwrap_hasher, stateLabel, List.count_cons]

/-- The handler retries with a `2 ^ attempt`-second wait below the
attempt limit. -/
theorem handler_lt {E : Type} (e : E) {a : Nat} (ha : a < MAX_ATTEMPTS) :
    retryHandlerHandle a e = .waitRetry (2 ^ a) := by
  simp [retryHandlerHandle, ha]

/-- The handler forwards the error unchanged at the attempt limit. -/
theorem handler_ge {E : Type} (e : E) {a : Nat} (ha : ¬a < MAX_ATTEMPTS) :
    retryHandlerHandle a e = .forwardError e := by
  simp [retryHandlerHandle, ha]

/-- Unfolding `futureRetryFrom` when the attempt succeeds. -/
theorem futureRetryFrom_isOk {E R : Type} (op : Nat → Except E R) {a : Nat} {v : R}
    (h : op a = .ok v) : futureRetryFrom op a = (.ok v, [], 1) := by
  rw [futureRetryFrom.eq_def, h]

/-- Unfolding `futureRetryFrom` when the attempt fails past the limit:
the last error is forwarded unchanged. -/
theorem futureRetryFrom_error_fwd {E R : Type} (op : Nat → Except E R) {a : Nat} {e : E}
    (h : op a = .error e) (ha : ¬a < MAX_ATTEMPTS) :
    futureRetryFrom op a = (.error e, [], 1) := by
  rw [futureRetryFrom.eq_def, h]
  split
  next v heq => exact Except.noConfusion heq
  next e2 heq =>
    cases heq
    split
    next e3 heq2 =>
      rw [handler_ge e ha] at heq2
      cases heq2
      rfl
    next d heq2 =>
      rw [handler_ge e ha] at heq2
      cases heq2

/-- Unfolding `futureRetryFrom` when the attempt fails below the limit:
a `2 ^ attempt`-second delay is recorded and the next attempt runs. -/
theorem futureRetryFrom_error_wait {E R : Type} (op : Nat → Except E R) {a : Nat} {e : E}
    (h : op a = .error e) (ha : a < MAX_ATTEMPTS) :
    futureRetryFrom op a =
      ((futureRetryFrom op (a + 1)).1,
       2 ^ a :: (futureRetryFrom op (a + 1)).2.1,
       (futureRetryFrom op (a + 1)).2.2 + 1) := by
  rw [futureRetryFrom.eq_def, h]
  split
  next v heq => exact Except.noConfusion heq
  next e2 heq =>
    cases heq
    split
    next e3 heq2 =>
      rw [handler_lt e ha] at heq2
      cases heq2
    next d heq2 =>
      rw [handler_lt e ha] at heq2
      cases heq2
      rfl

/-- A run that fails on the attempts `a, …, a + r - 1` and succeeds on
attempt `a + r` (all within the attempt limit) returns the success
value after delays of `2 ^ a, …, 2 ^ (a + r - 1)` seconds over `r + 1`
attempts. -/
theorem futureRetryFrom_ok_after {E R : Type} (op : Nat → Except E R) (errf : Nat → E)
    (v : R) :
    ∀ r a, a + r ≤ MAX_ATTEMPTS →
      (∀ j, a ≤ j → j < a + r → op j = .error (errf j)) →
      op (a + r) = .ok v →
      futureRetryFrom op a = (.ok v, (List.range' a r).map fun j => 2 ^ j, r + 1) := by
  intro r
  induction r with
  | zero =>
    intro a _ _ hsucc
    rw [futureRetryFrom_isOk op (by simpa using hsucc)]
    simp
  | succ r ih =>
    intro a hbound hfail hsucc
    have h1 : op a = .error (errf a) := hfail a le_rfl (by omega)
    have h2 : a < MAX_ATTEMPTS := by
      simp only [MAX_ATTEMPTS] at hbound ⊢
      omega
    rw [futureRetryFrom_error_wait op h1 h2,
      ih (a + 1) (by omega) (fun j hj1 hj2 => hfail j (by omega) (by omega))
        (by rw [show a + 1 + r = a + (r + 1) from by omega]; exact hsucc)]
    simp [List.range'_succ]

/-- C3: an operation failing exactly `k` times (`k < 3`) before
succeeding is retried with backoff delays of `2^1, …, 2^k` seconds and
returns the success value on attempt `k + 1`; an operation that always
fails is attempted exactly 3 times, with delays of `2^1` and `2^2`
seconds in between, and the third attempt's error is returned
unchanged. -/
theorem retried_spec {E R : Type} (op1 op2 : Nat → Except E R) (errf1 errf2 : Nat → E)
    (v : R) (k : Nat) (hk : k < MAX_ATTEMPTS)
    (hfail : ∀ i, i < k → op1 (i + 1) = .error (errf1 i))
    (hsucc : op1 (k + 1) = .ok v)
    (hall : ∀ i, op2 (i + 1) = .error (errf2 i)) :
    retried op1 = (.ok v, (List.range' 1 k).map fun j => 2 ^ j, k + 1) ∧
    retried op2 = (.error (errf2 2), [2, 4], 3) := by
  constructor
  · unfold retried
    exact futureRetryFrom_ok_after op1 (fun j => errf1 (j - 1)) v k 1
      (by simp only [MAX_ATTEMPTS] at hk ⊢; omega)
      (fun j hj1 hj2 => by
        have : op1 ((j - 1) + 1) = .error (errf1 (j - 1)) := hfail (j - 1) (by omega)
        rwa [show j - 1 + 1 = j from by omega] at this)
      (by rw [show 1 + k = k + 1 from by omega]; exact hsucc)
  · unfold retried
    have e1 : op2 1 = .error (errf2 0) := hall 0
    have e2 : op2 2 = .error (errf2 1) := hall 1
    have e3 : op2 3 = .error (errf2 2) := hall 2
    rw [futureRetryFrom_error_wait op2 e1 (by decide)]
    rw [futureRetryFrom_error_wait op2 e2 (by decide)]
    rw [futureRetryFrom_error_fwd op2 e3 (by decide)]
    simp

/-- C3 witness: a concrete operation failing twice then returning 7 is
retried with delays 2 and 4 and succeeds on the third attempt; a
concrete operation that always fails yields its error after exactly 3
attempts. -/
theorem retried_spec_witness :
    retried (fun i => if i < 3 then Except.error "boom" else Except.ok 7) =
      (.ok 7, (List.range' 1 2).map fun j => 2 ^ j, 2 + 1) ∧
    retried (fun _ => (Except.error "down" : Except String Nat)) =
      (.error "down", [2, 4], 3) :=
  retried_spec (fun i => if i < 3 then Except.error "boom" else Except.ok 7)
    (fun _ => (Except.error "down" : Except String Nat))
    (fun _ => "boom") (fun _ => "down") 7 2 (by decide)
    (fun i hi => by
      have : i + 1 < 3 := by omega
      simp [this])
    (by simp)
    (fun i => rfl)

/-- Folding `collectStep` from an error accumulator appends every
further error in order. -/
theorem foldl_collectStep_error {S E : Type} (l : List (Except E S)) (acc : List E) :
    l.foldl collectStep (.error acc) = .error (acc ++ errorsOf l) := by
  induction l generalizing acc with
  | nil => simp [errorsOf]
  | cons a t ih =>
    cases a with
    | ok v => simp [collectStep, ih, errorsOf, List.filterMap_cons]
    | error e => simp [collectStep, ih, errorsOf, List.filterMap_cons]

/-- `collect_errors` succeeds iff there is no error, and otherwise
carries exactly the errors, in encounter order. -/
theorem collect_errors_char {S E : Type} (l : List (Except E S)) :
    collect_errors l =
      if (errorsOf l).isEmpty then .ok () else .error (errorsOf l) := by
  induction l with
  | nil => simp [collect_errors, errorsOf]
  | cons a t ih =>
    cases a with
    | ok v =>
      simp only [collect_errors, List.foldl_cons, collectStep] at ih ⊢
      simpa [errorsOf, List.filterMap_cons] using ih
    | error e =>
      simp only [collect_errors, List.foldl_cons, collectStep]
      rw [foldl_collectStep_error]
      simp [errorsOf, List.filterMap_cons]

/-- `upload_file_outcome` maps errors to errors and successes to
successes, so the per-file errors survive the mapping unchanged. -/
theorem errorsOf_map_outcome {E : Type} (l : List (Except E UploadFileResponse)) :
    errorsOf (l.map upload_file_outcome) = errorsOf l := by
  induction l with
  | nil => rfl
  | cons a t ih =>
    cases a <;> simp [errorsOf, List.filterMap_cons, upload_file_outcome, Except.map] at ih ⊢ <;>
      exact ih

/-- C4: `upload_files` reports success iff no per-file task ended in an
error (`HashMismatch` and `BadRequest` responses are per-task successes
and cannot flip the run to failure), and when it fails, the collected
error list contains exactly the failing tasks' errors — every sibling
task's outcome is counted, none is dropped. -/
theorem upload_files_failure_iff {E : Type}
    (rs rs2 : List (Except E UploadFileResponse)) (record : UploadedFileRecord)
    (m1 m2 : String) (errs : List E)
    (h : collect_errors (rs2.map upload_file_outcome) = .error errs) :
    (upload_files_result rs = .ok () ↔ errorsOf rs = []) ∧
    (upload_files_result rs = .error "Could not upload all files" ↔ errorsOf rs ≠ []) ∧
    upload_file_outcome (.ok (.HashMismatch m1) : Except E UploadFileResponse) = .ok () ∧
    upload_file_outcome (.ok (.BadRequest m2) : Except E UploadFileResponse) = .ok () ∧
    upload_file_outcome (.ok (.Success record) : Except E UploadFileResponse) = .ok () ∧
    errs = errorsOf rs2 := by
  have hchar : ∀ l : List (Except E UploadFileResponse),
      upload_files_result l =
        if (errorsOf l).isEmpty then .ok () else .error "Could not upload all files" := by
    intro l
    unfold upload_files_result
    rw [collect_errors_char, errorsOf_map_outcome]
    by_cases he : (errorsOf l).isEmpty <;> simp [he]
  refine ⟨?_, ?_, rfl, rfl, rfl, ?_⟩
  · rw [hchar rs]
    by_cases he : errorsOf rs = []
    · simp [he]
    · simp [he, List.isEmpty_iff]
  · rw [hchar rs]
    by_cases he : errorsOf rs = []
    · simp [he]
    · simp [he, List.isEmpty_iff]
  · rw [collect_errors_char, errorsOf_map_outcome] at h
    by_cases he : (errorsOf rs2).isEmpty
    · simp [he] at h
    · simp [he] at h
      exact h.symm

/-- Four concrete task results — a success, an error, a hash mismatch
and a second error. -/
def sampleResults : List (Except String UploadFileResponse) :=
  [.ok (.Success ⟨0, "dev", "f", []⟩), .error "e1",
   .ok (.HashMismatch "m"), .error "e2"]

/-- C4 witness: over the four concrete task results the run fails and
collects exactly the two errors. -/
theorem upload_files_failure_iff_witness :
    (upload_files_result sampleResults = .ok () ↔ errorsOf sampleResults = []) ∧
    (upload_files_result sampleResults = .error "Could not upload all files" ↔
      errorsOf sampleResults ≠ []) ∧
    upload_file_outcome (.ok (.HashMismatch "m") : Except String UploadFileResponse) =
      .ok () ∧
    upload_file_outcome (.ok (.BadRequest "b") : Except String UploadFileResponse) =
      .ok () ∧
    upload_file_outcome
        (.ok (.Success ⟨0, "dev", "f", []⟩) : Except String UploadFileResponse) =
      .ok () ∧
    ["e1", "e2"] = errorsOf sampleResults :=
  upload_files_failure_iff sampleResults sampleResults
    ⟨0, "dev", "f", []⟩ "m" "b" ["e1", "e2"] rfl

/-- A filesystem holding a single dangling symlink at path `target`. -/
def fsDangling : Fs :=
  ⟨fun p => if p = "target" then some .danglingSymlink else none, fun _ => []⟩

/-- C5 counterexample: a dangling symlink given directly as an input
path is not a directory, so `unfold_dirs` includes it verbatim — the
output contains a path that is not an extant regular file. -/
theorem unfold_dirs_passes_nonfile_input :
    unfold_dirs fsDangling ["target"] = ["target"] ∧
    fsDangling.is_file "target" = false ∧
    fsDangling.is_dir "target" = false := by
  refine ⟨?_, by decide, by decide⟩
  simp [unfold_dirs, fsDangling, Fs.is_dir]

/-- C5 (amended): every path `unfold_dirs` returns is either an extant
regular file — always the case for paths found by enumerating a
directory input, thanks to the `is_file` filter — or a non-directory
input path that was included verbatim without any check. -/
theorem unfold_dirs_output_char (fs : Fs) (filenames : List String) (p : String)
    (hp : p ∈ unfold_dirs fs filenames) :
    fs.is_file p = true ∨ (p ∈ filenames ∧ fs.is_dir p = false) := by
  unfold unfold_dirs at hp
  rw [List.mem_flatten] at hp
  obtain ⟨l, hl, hpl⟩ := hp
  rw [List.mem_map] at hl
  obtain ⟨path, hpath, rfl⟩ := hl
  by_cases hd : fs.is_dir path
  · rw [if_pos hd] at hpl
    exact Or.inl (List.mem_filter.mp hpl).2
  · rw [if_neg hd] at hpl
    rw [List.mem_singleton] at hpl
    subst hpl
    exact Or.inr ⟨hpath, by simpa using hd⟩

/-- C5 witness: the amended characterization applied to the dangling
symlink filesystem. -/
theorem unfold_dirs_output_char_witness :
    fsDangling.is_file "target" = true ∨
    ("target" ∈ ["target"] ∧ fsDangling.is_dir "target" = false) :=
  unfold_dirs_output_char fsDangling ["target"] "target"
    (by simp [unfold_dirs, fsDangling, Fs.is_dir])

/-- C6: `connector::upload_file` maps 200 to `Success` with the parsed
record (a JSON decoding failure on the 200 body is an error), 412 to
`HashMismatch` with the body text, 400 to `BadRequest` with the body
text, and every other status to `InvalidStatus` with expected 200; and
any `Ok` outcome — so in particular `HashMismatch` and `BadRequest` —
is returned by `retried` after a single attempt with no backoff, hence
never retried. -/
theorem upload_response_dispatch (status : Nat) (record : UploadedFileRecord)
    (jerr text : String) (j : Except String UploadedFileRecord)
    (op : Nat → Except AnyError UploadFileResponse) (r : UploadFileResponse)
    (hst : status ≠ 200 ∧ status ≠ 412 ∧ status ≠ 400)
    (hop : op 1 = .ok r) :
    interpret_upload_response 200 (.ok record) text = .ok (.Success record) ∧
    interpret_upload_response 200 (.error jerr) text = .error (.jsonError jerr) ∧
    interpret_upload_response 412 j text = .ok (.HashMismatch text) ∧
    interpret_upload_response 400 j text = .ok (.BadRequest text) ∧
    interpret_upload_response status j text = .error (.invalidStatus 200 status) ∧
    retried op = (.ok r, [], 1) := by
  obtain ⟨h200, h412, h400⟩ := hst
  refine ⟨rfl, rfl, rfl, rfl, ?_, ?_⟩
  · simp [interpret_upload_response, h200, h412, h400]
  · exact futureRetryFrom_isOk op hop

/-- C6 witness: a 500 response is an `InvalidStatus` error, and a
hash-mismatch outcome completes in one attempt. -/
theorem upload_response_dispatch_witness :
    interpret_upload_response 200 (.ok ⟨0, "dev", "f", []⟩) "t" =
      .ok (.Success ⟨0, "dev", "f", []⟩) ∧
    interpret_upload_response 200 (.error "bad json") "t" =
      .error (.jsonError "bad json") ∧
    interpret_upload_response 412 (.error "ignored") "t" = .ok (.HashMismatch "t") ∧
    interpret_upload_response 400 (.error "ignored") "t" = .ok (.BadRequest "t") ∧
    interpret_upload_response 500 (.error "ignored") "t" =
      .error (.invalidStatus 200 500) ∧
    retried (fun _ => (.ok (.HashMismatch "t") : Except AnyError UploadFileResponse)) =
      (.ok (.HashMismatch "t"), [], 1) :=
  upload_response_dispatch 500 ⟨0, "dev", "f", []⟩ "bad json" "t" (.error "ignored")
    (fun _ => .ok (.HashMismatch "t")) (.HashMismatch "t") (by decide) rfl

/-- A filesystem with a regular file at `a` and a directory at `d`. -/
def fsWithDir : Fs :=
  ⟨fun p => if p = "d" then some .directory else some .regular, fun _ => []⟩

/-- C8: when some input path is a directory and the recursion flag is
unset, the `Upload` arm returns an error having performed no stage at
all — the session is not loaded and no upload (hence no network call or
per-file work) is started. -/
theorem upload_command_rejects_dir (fs : Fs) (filenames : List String) (p : String)
    (hp : p ∈ filenames) (hd : fs.is_dir p = true) :
    (upload_command fs false filenames).1 = [] ∧
    ∃ msg, (upload_command fs false filenames).2 = .error msg := by
  have hne : filenames.isEmpty = false := by
    cases filenames with
    | nil => cases hp
    | cons a t => rfl
  have hfind : (filenames.find? fun path => fs.is_dir path && !false).isSome := by
    rw [List.find?_isSome]
    exact ⟨p, hp, by simp [hd]⟩
  obtain ⟨q, hq⟩ := Option.isSome_iff_exists.mp hfind
  unfold upload_command
  rw [hne]
  simp only [Bool.false_eq_true, if_false, hq]
  exact ⟨trivial, _, rfl⟩

/-- C8 witness: uploading `["a", "d"]` where `d` is a directory, with
the recursion flag unset, reaches no stage and errors. -/
theorem upload_command_rejects_dir_witness :
    (upload_command fsWithDir false ["a", "d"]).1 = [] ∧
    ∃ msg, (upload_command fsWithDir false ["a", "d"]).2 = .error msg :=
  upload_command_rejects_dir fsWithDir ["a", "d"] "d" (by decide) (by decide)

/-- C10: invoking the `Upload` arm with an empty filename list returns
an error immediately: no stage is reached — the session file is not
read and no enumeration or network call happens. -/
theorem upload_command_rejects_empty (fs : Fs) (recursive : Bool) :
    upload_command fs recursive [] =
      ([], .error "You must provide at least one filename!") := rfl

/-- Filling the pool never exceeds the parallelism bound. -/
theorem schedFill_inflight_le (P : Nat) (s : SchedState) (h : s.inflight.length ≤ P) :
    (schedFill P s).inflight.length ≤ P := by
  simp only [schedFill, List.length_append, List.length_take]
  omega

/-- Polling never grows the pool. -/
theorem schedPoll_inflight_le (s : SchedState) :
    (schedPoll s).inflight.length ≤ s.inflight.length := by
  simp only [schedPoll]
  calc ((s.inflight.map fun n => n - 1).filter fun n => n != 0).length
      ≤ (s.inflight.map fun n => n - 1).length := List.length_filter_le _ _
    _ = s.inflight.length := List.length_map _ _

/-- Safety invariant: from any state within the bound, every reachable
state keeps at most `P` tasks in flight. -/
theorem schedRun_inflight_le (P : Nat) (k : Nat) (s : SchedState)
    (h : s.inflight.length ≤ P) : (schedRun P k s).inflight.length ≤ P := by
  induction k generalizing s with
  | zero => exact h
  | succ k ih =>
    exact ih _ ((schedPoll_inflight_le _).trans (schedFill_inflight_le P s h))

/-- One step moves tasks from the queue into `launched` one-for-one. -/
theorem schedStep_launched (P : Nat) (s : SchedState) :
    (schedStep P s).launched + (schedStep P s).pending.length =
      s.launched + s.pending.length := by
  simp only [schedStep, schedPoll, schedFill, List.length_take, List.length_drop]
  omega

/-- The launched count plus the queue size is constant over a run. -/
theorem schedRun_launched (P : Nat) (k : Nat) (s : SchedState) :
    (schedRun P k s).launched + (schedRun P k s).pending.length =
      s.launched + s.pending.length := by
  induction k generalizing s with
  | zero => rfl
  | succ k ih => rw [schedRun, ih, schedStep_launched]

/-- Remaining work: the total polls still owed plus one unit per
not-yet-finished task. -/
def schedMeasure (s : SchedState) : Nat :=
  s.pending.sum + s.pending.length + s.inflight.sum + s.inflight.length

/-- Filling moves work between the two lists without changing it. -/
theorem schedFill_measure (P : Nat) (s : SchedState) :
    schedMeasure (schedFill P s) = schedMeasure s := by
  simp only [schedMeasure, schedFill, List.sum_append, List.length_append,
    List.length_take, List.length_drop]
  have hsum := List.sum_take_add_sum_drop s.pending (P - s.inflight.length)
  omega

/-- Polling pays at most the full contribution of each in-flight task. -/
theorem pollContribution_le (l : List Nat) :
    ((l.map fun n => n - 1).filter fun n => n != 0).sum +
      ((l.map fun n => n - 1).filter fun n => n != 0).length ≤ l.sum + l.length := by
  induction l with
  | nil => simp
  | cons a t ih =>
    simp only [List.map_cons, List.filter_cons, List.sum_cons, List.length_cons]
    by_cases ha : (a - 1) = 0
    · simp only [ha]
      simp only [bne_self_eq_false, Bool.false_eq_true, if_false]
      omega
    · have : ((a - 1 : Nat) != 0) = true := by simpa using ha
      simp only [this, if_true]
      simp only [List.sum_cons, List.length_cons]
      omega

/-- Polling a non-empty pool strictly decreases the remaining work. -/
theorem pollContribution_lt (l : List Nat) (h : l ≠ []) :
    ((l.map fun n => n - 1).filter fun n => n != 0).sum +
      ((l.map fun n => n - 1).filter fun n => n != 0).length + 1 ≤ l.sum + l.length := by
  cases l with
  | nil => cases h rfl
  | cons a t =>
    simp only [List.map_cons, List.filter_cons, List.sum_cons, List.length_cons]
    have ih := pollContribution_le t
    by_cases ha : (a - 1) = 0
    · simp only [ha]
      simp only [bne_self_eq_false, Bool.false_eq_true, if_false]
      omega
    · have : ((a - 1 : Nat) != 0) = true := by simpa using ha
      simp only [this, if_true]
      simp only [List.sum_cons, List.length_cons]
      omega

/-- A finished state is a fixed point of the scheduler. -/
theorem schedStep_fixed (P : Nat) (s : SchedState) (hp : s.pending = [])
    (hi : s.inflight = []) : schedStep P s = s := by
  obtain ⟨pend, infl, l, c⟩ := s
  simp only at hp hi
  subst hp
  subst hi
  simp [schedStep, schedFill, schedPoll]

/-- Zero remaining work means both lists are empty. -/
theorem schedMeasure_zero (s : SchedState) (h : schedMeasure s = 0) :
    s.pending = [] ∧ s.inflight = [] := by
  unfold schedMeasure at h
  constructor
  · exact List.length_eq_zero.mp (by omega)
  · exact List.length_eq_zero.mp (by omega)

/-- With a positive parallelism, a step on unfinished work strictly
decreases the remaining work. -/
theorem schedStep_measure_lt (P : Nat) (s : SchedState) (hP : 1 ≤ P)
    (h : schedMeasure s ≠ 0) : schedMeasure (schedStep P s) + 1 ≤ schedMeasure s := by
  have hfill := schedFill_measure P s
  have hinfl : (schedFill P s).inflight ≠ [] := by
    cases hi : s.inflight with
    | cons a t =>
      simp only [schedFill, hi]
      intro hcontra
      exact List.cons_ne_nil _ _ (List.append_eq_nil.mp hcontra).1
    | nil =>
      have hpend : s.pending ≠ [] := by
        intro hp
        apply h
        unfold schedMeasure
        rw [hp, hi]
        rfl
      simp only [schedFill, hi, List.nil_append, List.length_nil, Nat.sub_zero]
      intro hcontra
      have : (s.pending.take P).length = 0 := by rw [hcontra]; rfl
      rw [List.length_take] at this
      have : s.pending.length = 0 := by omega
      exact hpend (List.length_eq_zero.mp this)
  have hpoll := pollContribution_lt (schedFill P s).inflight hinfl
  unfold schedStep
  unfold schedMeasure schedPoll at *
  simp only at *
  omega

/-- Enough steps drive the remaining work to zero. -/
theorem schedRun_reaches_zero (P : Nat) (hP : 1 ≤ P) :
    ∀ n s, schedMeasure s ≤ n → schedMeasure (schedRun P n s) = 0 := by
  intro n
  induction n with
  | zero =>
    intro s h
    exact Nat.le_zero.mp h
  | succ n ih =>
    intro s h
    by_cases h0 : schedMeasure s = 0
    · obtain ⟨hp, hi⟩ := schedMeasure_zero s h0
      rw [schedRun, schedStep_fixed P s hp hi]
      exact ih s (by omega)
    · have := schedStep_measure_lt P s hP h0
      rw [schedRun]
      exact ih _ (by omega)

/-- C9: over any task list and any positive parallelism `P`, the
`buffer_unordered` scheduling keeps at most `P` uploads in flight at
every reachable instant, and after finitely many instants every task has
been launched and has completed (queue and pool both empty, launched
count equal to the number of tasks). -/
theorem buffer_unordered_bound (P : Nat) (tasks : List Nat) (hP : 1 ≤ P) :
    (∀ k, (schedRun P k (initState tasks)).inflight.length ≤ P) ∧
    (∃ k, (schedRun P k (initState tasks)).pending = [] ∧
      (schedRun P k (initState tasks)).inflight = [] ∧
      (schedRun P k (initState tasks)).launched = tasks.length) := by
  constructor
  · intro k
    exact schedRun_inflight_le P k _ (by simp [initState])
  · refine ⟨schedMeasure (initState tasks), ?_⟩
    have h0 := schedRun_reaches_zero P hP (schedMeasure (initState tasks)) _ le_rfl
    obtain ⟨hp, hi⟩ := schedMeasure_zero _ h0
    refine ⟨hp, hi, ?_⟩
    have hl := schedRun_launched P (schedMeasure (initState tasks)) (initState tasks)
    rw [hp] at hl
    simpa [initState] using hl

/-- C9 witness: three tasks under parallelism 2. -/
theorem buffer_unordered_bound_witness :
    (∀ k, (schedRun 2 k (initState [1, 2, 3])).inflight.length ≤ 2) ∧
    (∃ k, (schedRun 2 k (initState [1, 2, 3])).pending = [] ∧
      (schedRun 2 k (initState [1, 2, 3])).inflight = [] ∧
      (schedRun 2 k (initState [1, 2, 3])).launched = [1, 2, 3].length) :=
  buffer_unordered_bound 2 [1, 2, 3] (by decide)

end RBackup
